import Mathlib

/-!
# TabularStore: verification of the spreadsheet engine

Shallow embedding of the in-memory tabular engine of
`excel_like_program.py` (class `Spreadsheet`).  A table is an ordered
list of column names plus an ordered list of rows, each row a list of
cell strings positionally aligned with the columns (the pandas
`DataFrame` is modelled at the level of its string contents; numeric
cells are modelled as integer literals).  Each operation of the class
becomes a Lean function from a table (plus its arguments) to an
outcome paired with the table after the call.  The CSV codec
(`pd.read_csv` / `DataFrame.to_csv`, an external collaborator of the
repository) is modelled from the spec as comma-delimited text with a
header row, minimal quoting, and a field-count check per record.
-/

namespace Spreadsheet

/-- The table value held by `Spreadsheet.df`: ordered column names and
ordered rows; row `i`, cell `j` belongs to column `j`. -/
structure Table where
  columns : List String
  rows : List (List String)
deriving DecidableEq, Repr

/-- The failure taxonomy of the spec (section 7). -/
inductive Fail where
  | notFound
  | emptyData
  | parseError
  | writeError
  | columnNotFound
  | shapeMismatch
  | unsupportedChartType
deriving DecidableEq, Repr

/-- Outcome of one operation call: a returned value, a reported
(recovered) failure, or an uncaught exception escaping the call. -/
inductive Outcome (α : Type) where
  | ok (a : α)
  | fail (k : Fail)
  | raised
deriving DecidableEq, Repr

/-- `df.empty` in pandas: true when either axis has length zero. -/
def Table.isEmpty (t : Table) : Bool :=
  t.rows.isEmpty || t.columns.isEmpty

/-- Rectangularity: every row has exactly one cell per column. -/
def Table.rect (t : Table) : Bool :=
  t.rows.all (fun r => r.length == t.columns.length)

/-- Cell of row `row` under column `c`, walking `cols` and `row`
positionally (the `df[col]` access for a row; first match wins,
column names are unique in every reachable table). -/
def cellOf : List String → List String → String → String
  | [], _, _ => ""
  | _ :: _, [], _ => ""
  | c0 :: cs, v :: vs, c => if c0 = c then v else cellOf cs vs c

/-- The cells of column `c`, top to bottom: the series `df[c]`. -/
def colCells (t : Table) (c : String) : List String :=
  t.rows.map (fun r => cellOf t.columns r c)

/-- Replace, in one row, the cell under column `c` by `w` (the per-row
effect of overwriting an existing column). -/
def setCell : List String → List String → String → String → List String
  | [], row, _, _ => row
  | _ :: _, [], _, _ => []
  | c0 :: cs, v :: vs, c, w => if c0 = c then w :: vs else v :: setCell cs vs c w

/-- Digits-only accumulator for integer parsing. -/
def digitsToNatAux : Nat → List Char → Option Nat
  | acc, [] => some acc
  | acc, c :: cs =>
    if c.isDigit then digitsToNatAux (acc * 10 + (c.toNat - Char.toNat (Char.ofNat 48))) cs
    else none

/-- `pd.to_numeric(cell, errors=coerce)` at the level of this model:
an optional minus sign followed by one or more digits parses to an
integer, anything else coerces to missing (`none`). -/
def toNumeric (s : String) : Option Int :=
  match s.data with
  | [] => none
  | c :: cs =>
    if c = Char.ofNat 45 then
      match cs with
      | [] => none
      | d :: ds => (digitsToNatAux 0 (d :: ds)).map (fun n => -(n : Int))
    else (digitsToNatAux 0 (c :: cs)).map (fun n => (n : Int))

/-! ## The CSV codec (TableCodec collaborator)

Modelled from the spec: `pd.read_csv` / `to_csv` are external to the
repository; spec section 6 fixes the format as comma-delimited text
with a header row whose records must match the header field count.
Encoding uses minimal quoting (a field containing a comma, quote,
newline or carriage return is wrapped in quotes with inner quotes
doubled), decoding is a quote-aware field parser. -/

/-- A field needs quoting when it contains a delimiter-significant
character. -/
def needsQuote (l : List Char) : Bool :=
  l.any (fun c => decide (c = ',' ∨ c = '"' ∨ c = '\n' ∨ c = '\r'))

/-- Double every quote character. -/
def escQuotes : List Char → List Char
  | [] => []
  | c :: cs => if c = '"' then '"' :: '"' :: escQuotes cs else c :: escQuotes cs

/-- Encode one field with minimal quoting. -/
def encodeField (s : String) : List Char :=
  if needsQuote s.data then '"' :: (escQuotes s.data ++ ['"']) else s.data

/-- Encode one record: fields joined by commas. -/
def encodeRecord : List String → List Char
  | [] => []
  | [f] => encodeField f
  | f :: fs => encodeField f ++ ',' :: encodeRecord fs

/-- Encode the records, each terminated by a newline. -/
def encodeLines : List (List String) → List Char
  | [] => []
  | r :: rs => encodeRecord r ++ '\n' :: encodeLines rs

/-- `DataFrame.to_csv(index=False)`: header record, then the rows. -/
def encode (t : Table) : String :=
  ⟨encodeLines (t.columns :: t.rows)⟩

/-- Parse the body of a quoted field after the opening quote: returns
the field content and the input after the closing quote; doubled
quotes are literal quotes; `none` on an unterminated quote. -/
def parseQuoted : List Char → Option (List Char × List Char)
  | [] => none
  | [c] => if c = '"' then some ([], []) else none
  | c :: c2 :: rest =>
    if c = '"' then
      if c2 = '"' then (parseQuoted rest).map (fun p => ('"' :: p.1, p.2))
      else some ([], c2 :: rest)
    else (parseQuoted (c2 :: rest)).map (fun p => (c :: p.1, p.2))

/-- Parse an unquoted field: everything up to the next comma or
newline. -/
def parseUnquoted : List Char → List Char × List Char
  | [] => ([], [])
  | c :: rest =>
    if c = ',' ∨ c = '\n' then ([], c :: rest)
    else
      let p := parseUnquoted rest
      (c :: p.1, p.2)

/-- Parse one field, quoted or unquoted. -/
def parseField : List Char → Option (List Char × List Char)
  | [] => some ([], [])
  | c :: rest =>
    if c = '"' then parseQuoted rest
    else some (parseUnquoted (c :: rest))

/-- Parse one record: comma-separated fields up to a newline or the
end of input.  `fuel` bounds the number of fields. -/
def parseRecordAux : Nat → List Char → Option (List (List Char) × List Char)
  | 0, _ => none
  | fuel + 1, l =>
    match parseField l with
    | none => none
    | some (f, rest) =>
      match rest with
      | [] => some ([f], [])
      | c :: r =>
        if c = ',' then (parseRecordAux fuel r).map (fun p => (f :: p.1, p.2))
        else if c = '\n' then some ([f], r)
        else none

/-- Parse the sequence of records until the input is exhausted.
`fuel` bounds the number of records. -/
def parseRecordsAux : Nat → List Char → Option (List (List (List Char)))
  | 0, _ => none
  | fuel + 1, l =>
    if l.isEmpty then some []
    else
      match parseRecordAux (l.length + 1) l with
      | none => none
      | some (r, rest) => (parseRecordsAux fuel rest).map (fun rs => r :: rs)

/-- Modelled from the spec: the `TableCodec.Decode` collaborator
(`pd.read_csv` is not part of this repository).  Blank input is
`EmptyData`; the first record is the header; every other record must
match the header field count or the decode is a `ParseError`. -/
def decode (s : String) : Except Fail Table :=
  if s.data.all (fun c => c == '\n') then .error .emptyData
  else
    match parseRecordsAux (s.data.length + 2) s.data with
    | none => .error .parseError
    | some [] => .error .emptyData
    | some (header :: rows) =>
      if rows.all (fun r => r.length == header.length) then
        .ok ⟨header.map (fun f => ⟨f⟩), rows.map (fun r => r.map (fun f => ⟨f⟩))⟩
      else .error .parseError

/-! ## The operations of `Spreadsheet` -/

/-- `load_csv`: a missing file is `NotFound`; a decode failure is
reported and leaves the table untouched; a successful decode replaces
the whole table and reports the new row and column counts. -/
def load_csv (t : Table) (file : Option String) : Outcome (Nat × Nat) × Table :=
  match file with
  | none => (.fail .notFound, t)
  | some s =>
    match decode s with
    | .error k => (.fail k, t)
    | .ok t2 => (.ok (t2.rows.length, t2.columns.length), t2)

/-- `save_csv`: encodes the current table; never mutates it; an
unwritable destination is a reported `WriteError`. -/
def save_csv (t : Table) (writable : Bool) : Outcome String × Table :=
  if writable then (.ok (encode t), t) else (.fail .writeError, t)

/-- Result of `view`: the explicit empty-table report, or the first
rows. -/
inductive ViewResult where
  | emptyTable
  | top (rows : List (List String))
deriving DecidableEq, Repr

/-- `view n`: the first `n` rows, or the explicit empty report. -/
def view (t : Table) (n : Nat) : Outcome ViewResult × Table :=
  if t.isEmpty then (.ok .emptyTable, t)
  else (.ok (.top (t.rows.take n)), t)

/-- `add_row`: on a non-empty table the value count must match the
column count (`ShapeMismatch` otherwise), and the row is appended; on
a pandas-empty table the whole table is replaced by `DataFrame([values])`,
whose column names are the positional indices. -/
def add_row (t : Table) (values : List String) : Outcome Unit × Table :=
  if t.isEmpty = false ∧ values.length ≠ t.columns.length then
    (.fail .shapeMismatch, t)
  else if t.isEmpty then
    (.ok (), ⟨(List.range values.length).map (fun i => toString i), [values]⟩)
  else
    (.ok (), ⟨t.columns, t.rows ++ [values]⟩)

/-- `df[name] = values`: on a table empty on both axes, creates the
column and its index; otherwise requires the value count to equal the
row count (`none` models the uncaught pandas `ValueError`), then
overwrites an existing column in place or appends a new one. -/
def setCol (t : Table) (name : String) (values : List String) : Option Table :=
  if t.columns = [] ∧ t.rows = [] then
    some ⟨[name], values.map (fun v => [v])⟩
  else if values.length = t.rows.length then
    if name ∈ t.columns then
      some ⟨t.columns, List.zipWith (fun r v => setCell t.columns r name v) t.rows values⟩
    else
      some ⟨t.columns ++ [name], List.zipWith (fun r v => r ++ [v]) t.rows values⟩
  else none

/-- `add_column`: the length guard only fires on a non-empty table;
the assignment itself is outside any handler, so its failure escapes
the call as an uncaught exception. -/
def add_column (t : Table) (name : String) (values : List String) : Outcome Unit × Table :=
  if t.isEmpty = false ∧ values.length ≠ t.rows.length then
    (.fail .shapeMismatch, t)
  else
    match setCol t name values with
    | some t2 => (.ok (), t2)
    | none => (.raised, t)

/-- `sum_column`: `ColumnNotFound` for an absent column, otherwise the
sum of the coercible cells (missing cells excluded; empty sum is 0). -/
def sum_column (t : Table) (col : String) : Outcome Int × Table :=
  if col ∈ t.columns then
    (.ok ((colCells t col).filterMap toNumeric).sum, t)
  else (.fail .columnNotFound, t)

/-- `average_column`: `ColumnNotFound` for an absent column; the mean
of the coercible cells, or the distinguished undefined value (`none`,
the NaN mean of an all-missing series). -/
def average_column (t : Table) (col : String) : Outcome (Option ℚ) × Table :=
  if col ∈ t.columns then
    let nums := (colCells t col).filterMap toNumeric
    if nums.isEmpty then (.ok none, t)
    else (.ok (some ((nums.sum : ℚ) / (nums.length : ℚ))), t)
  else (.fail .columnNotFound, t)

/-- Result of `filter_rows`: the explicit no-match report, or the
matching rows in order. -/
inductive FilterResult where
  | noMatches
  | found (rows : List (List String))
deriving DecidableEq, Repr

/-- `filter_rows`: `ColumnNotFound` for an absent column; keeps
exactly the rows whose cell under `col`, as a string, equals `value`;
reports the explicit no-match status when none do. -/
def filter_rows (t : Table) (col value : String) : Outcome FilterResult × Table :=
  if col ∈ t.columns then
    let matched := t.rows.filter (fun r => cellOf t.columns r col == value)
    if matched.isEmpty then (.ok .noMatches, t)
    else (.ok (.found matched), t)
  else (.fail .columnNotFound, t)

/-- The plot request handed to the chart renderer: title, labels,
kind, and the two coerced series zipped positionally (missing cells
stay visible to the renderer as `none`). -/
structure PlotRequest where
  title : String
  xLabel : String
  yLabel : String
  kind : String
  points : List (Option Int × Option Int)
deriving DecidableEq, Repr

/-- `plot`: `ColumnNotFound` when either column is absent; for the
supported kinds both axes are coerced and the request is produced;
any other kind is the reported `UnsupportedChartType`. -/
def plot (t : Table) (xCol yCol kind : String) : Outcome PlotRequest × Table :=
  if xCol ∈ t.columns ∧ yCol ∈ t.columns then
    if kind = "line" ∨ kind = "bar" then
      (.ok ⟨kind.capitalize ++ " plot of " ++ yCol ++ " vs " ++ xCol,
            xCol, yCol, kind,
            ((colCells t xCol).map toNumeric).zip ((colCells t yCol).map toNumeric)⟩, t)
    else (.fail .unsupportedChartType, t)
  else (.fail .columnNotFound, t)

/-! ## The operations as one step relation -/

/-- Payload-erased outcome of a call, for claims ranging over every
operation. -/
inductive OpResult where
  | ok
  | fail (k : Fail)
  | raised
deriving DecidableEq, Repr

/-- Erase the payload of an outcome. -/
def Outcome.status : Outcome α → OpResult
  | .ok _ => .ok
  | .fail k => .fail k
  | .raised => .raised

/-- One menu operation of the store with its arguments. -/
inductive Op where
  | loadOp (file : Option String)
  | saveOp (writable : Bool)
  | viewOp (n : Nat)
  | addRowOp (values : List String)
  | addColumnOp (name : String) (values : List String)
  | sumOp (col : String)
  | averageOp (col : String)
  | filterOp (col value : String)
  | plotOp (xCol yCol kind : String)
deriving DecidableEq, Repr

/-- Run one operation on the store: payload-erased status plus the
table after the call. -/
def runOp (op : Op) (t : Table) : OpResult × Table :=
  match op with
  | .loadOp f => ((load_csv t f).1.status, (load_csv t f).2)
  | .saveOp w => ((save_csv t w).1.status, (save_csv t w).2)
  | .viewOp n => ((view t n).1.status, (view t n).2)
  | .addRowOp vs => ((add_row t vs).1.status, (add_row t vs).2)
  | .addColumnOp name vs => ((add_column t name vs).1.status, (add_column t name vs).2)
  | .sumOp c => ((sum_column t c).1.status, (sum_column t c).2)
  | .averageOp c => ((average_column t c).1.status, (average_column t c).2)
  | .filterOp c v => ((filter_rows t c v).1.status, (filter_rows t c v).2)
  | .plotOp x y k => ((plot t x y k).1.status, (plot t x y k).2)

/-! ## Claims about the structural edits -/

/-- C3: on a non-empty table with `k` columns, `add_row` with a value
list of length `k` returns success, keeps the columns, appends exactly
the given row (cells positionally aligned with the columns) and
increases the row count by one; any other length is the reported
`ShapeMismatch` and the table is completely unchanged. -/
theorem c3_add_row_shape (t : Table) (values : List String)
    (he : t.isEmpty = false) :
    (values.length = t.columns.length →
      add_row t values = (.ok (), ⟨t.columns, t.rows ++ [values]⟩) ∧
      (add_row t values).2.rows.length = t.rows.length + 1) ∧
    (values.length ≠ t.columns.length →
      add_row t values = (.fail .shapeMismatch, t)) := by
  constructor
  · intro hlen
    constructor
    · simp [add_row, he, hlen]
    · simp [add_row, he, hlen]
  · intro hlen
    simp [add_row, he, hlen]

/-- Witness for C3 at a one-column table: a matching row is appended,
a two-value row is rejected with `ShapeMismatch`. -/
theorem c3_add_row_shape_witness :
    add_row ⟨["a"], [["1"]]⟩ ["x"] = (.ok (), ⟨["a"], [["1"], ["x"]]⟩) ∧
    add_row ⟨["a"], [["1"]]⟩ ["x", "y"] = (.fail .shapeMismatch, ⟨["a"], [["1"]]⟩) :=
  ⟨((c3_add_row_shape ⟨["a"], [["1"]]⟩ ["x"] (by decide)).1 (by decide)).1,
   (c3_add_row_shape ⟨["a"], [["1"]]⟩ ["x", "y"] (by decide)).2 (by decide)⟩

/-- C4: `add_row` on the empty store with `["x","y"]` yields columns
`["0","1"]` and the single row mapping column `"0"` to `"x"` and
`"1"` to `"y"`; in general, on an empty table it synthesizes the
positional column names `0, 1, 2, ...` for the length of `values` and
creates exactly one row. -/
theorem c4_add_row_empty_synthesizes_columns :
    (add_row ⟨[], []⟩ ["x", "y"] = (.ok (), ⟨["0", "1"], [["x", "y"]]⟩) ∧
      cellOf ["0", "1"] ["x", "y"] "0" = "x" ∧
      cellOf ["0", "1"] ["x", "y"] "1" = "y") ∧
    (∀ (t : Table) (values : List String), t.isEmpty = true →
      add_row t values =
        (.ok (), ⟨(List.range values.length).map (fun i => toString i), [values]⟩) ∧
      (add_row t values).2.rows.length = 1) := by
  refine ⟨by decide, ?_⟩
  intro t values he
  constructor
  · simp [add_row, he]
  · simp [add_row, he]

/-- Witness for C4: the general empty-table branch applied to a table
with a stale column name and zero rows. -/
theorem c4_add_row_empty_synthesizes_columns_witness :
    add_row ⟨["old"], []⟩ ["p", "q"]
      = (.ok (),
         ⟨(List.range (["p", "q"] : List String).length).map (fun i => toString i),
          [["p", "q"]]⟩) ∧
    (add_row ⟨["old"], []⟩ ["p", "q"]).2.rows.length = 1 :=
  c4_add_row_empty_synthesizes_columns.2 ⟨["old"], []⟩ ["p", "q"] (by decide)

/-- C10: on a table that has columns but zero rows, `add_row` takes
the empty-table branch whatever the length of `values`: no
`ShapeMismatch` is possible, and the whole table is replaced, the old
column names discarded in favor of the positional indices. -/
theorem c10_add_row_zero_rows_replaces_table (t : Table) (values : List String)
    (_hc : t.columns ≠ []) (hr : t.rows = []) :
    add_row t values =
      (.ok (), ⟨(List.range values.length).map (fun i => toString i), [values]⟩) := by
  have he : t.isEmpty = true := by simp [Table.isEmpty, hr]
  simp [add_row, he]

/-- Witness for C10: a table with one column and no rows, fed a
two-value row (which would be a shape mismatch were the guard live),
is replaced wholesale. -/
theorem c10_add_row_zero_rows_replaces_table_witness :
    add_row ⟨["a"], []⟩ ["x", "y"] = (.ok (), ⟨["0", "1"], [["x", "y"]]⟩) :=
  c10_add_row_zero_rows_replaces_table ⟨["a"], []⟩ ["x", "y"] (by decide) (by decide)

/-! ## Claims about the aggregations -/

/-- C6: `sum_column` coerces every cell, silently drops the
non-coercible ones and sums the rest; over `["1","2","x","4"]` the
sum is `7`; over an all-non-coercible column it is exactly `0`; an
absent column is the reported `ColumnNotFound`. -/
theorem c6_sum_column :
    (∀ (t : Table) (col : String), col ∈ t.columns →
      sum_column t col = (.ok ((colCells t col).filterMap toNumeric).sum, t)) ∧
    (∀ (t : Table) (col : String), col ∈ t.columns →
      (∀ c ∈ colCells t col, toNumeric c = none) →
      sum_column t col = (.ok 0, t)) ∧
    (∀ (t : Table) (col : String), col ∉ t.columns →
      sum_column t col = (.fail .columnNotFound, t)) ∧
    sum_column ⟨["a"], [["1"], ["2"], ["x"], ["4"]]⟩ "a"
      = (.ok 7, ⟨["a"], [["1"], ["2"], ["x"], ["4"]]⟩) := by
  refine ⟨?_, ?_, ?_, by decide⟩
  · intro t col hc
    simp [sum_column, hc]
  · intro t col hc hall
    have hnil : (colCells t col).filterMap toNumeric = [] :=
      List.filterMap_eq_nil_iff.mpr hall
    simp [sum_column, hc, hnil]
  · intro t col hc
    simp [sum_column, hc]

/-- Witness for C6 with the column present and with it absent. -/
theorem c6_sum_column_witness :
    sum_column ⟨["a"], [["p"], ["q"]]⟩ "a" = (.ok 0, ⟨["a"], [["p"], ["q"]]⟩) ∧
    sum_column ⟨["a"], [["1"]]⟩ "b" = (.fail .columnNotFound, ⟨["a"], [["1"]]⟩) :=
  ⟨c6_sum_column.2.1 ⟨["a"], [["p"], ["q"]]⟩ "a" (by decide) (by decide),
   c6_sum_column.2.2.1 ⟨["a"], [["1"]]⟩ "b" (by decide)⟩

/-- C7: `average_column` over a column with no coercible cell yields
the distinguished undefined value: the call succeeds (no failure is
reported) and the result is `none`, which is distinct from every
numeric result and in particular from zero. -/
theorem c7_average_undefined (t : Table) (col : String)
    (hc : col ∈ t.columns) (hall : ∀ c ∈ colCells t col, toNumeric c = none) :
    average_column t col = (.ok none, t) ∧
    (∀ q : ℚ, (Outcome.ok (some q) : Outcome (Option ℚ)) ≠ .ok none) := by
  have hnil : (colCells t col).filterMap toNumeric = [] :=
    List.filterMap_eq_nil_iff.mpr hall
  refine ⟨?_, by intro q h; simp at h⟩
  simp [average_column, hc, hnil]

/-- Witness for C7 at a two-row all-text column. -/
theorem c7_average_undefined_witness :
    average_column ⟨["a"], [["p"], ["q"]]⟩ "a" = (.ok none, ⟨["a"], [["p"], ["q"]]⟩) :=
  (c7_average_undefined ⟨["a"], [["p"], ["q"]]⟩ "a" (by decide) (by decide)).1

/-! ## Filtering -/

/-- C8: `filter_rows` keeps exactly the rows whose cell under the
column, as a string, is character-for-character equal to the value:
over `[{status:active},{status:Active},{status:active}]` filtering on
`active` returns exactly the first and third rows (case matters);
when no row matches, the explicit no-match status is reported, a
constructor distinct from any row list; the table is never mutated. -/
theorem c8_filter_exact_match :
    (filter_rows ⟨["status"], [["active"], ["Active"], ["active"]]⟩ "status" "active"
      = (.ok (.found [["active"], ["active"]]),
         ⟨["status"], [["active"], ["Active"], ["active"]]⟩)) ∧
    (∀ (t : Table) (col value : String), col ∈ t.columns →
      (∀ rows, (filter_rows t col value).1 = .ok (.found rows) →
        ∀ r, r ∈ rows ↔ r ∈ t.rows ∧ cellOf t.columns r col = value) ∧
      ((∀ r ∈ t.rows, cellOf t.columns r col ≠ value) →
        (filter_rows t col value).1 = .ok .noMatches) ∧
      (filter_rows t col value).2 = t) := by
  refine ⟨by decide, ?_⟩
  intro t col value hc
  refine ⟨?_, ?_, ?_⟩
  · intro rows h r
    by_cases hm : (t.rows.filter (fun r => cellOf t.columns r col == value)).isEmpty
    · simp [filter_rows, hc, hm] at h
    · simp only [filter_rows, if_pos hc, if_neg hm] at h
      have hrows : rows = t.rows.filter (fun r => cellOf t.columns r col == value) := by
        cases h
        rfl
      subst hrows
      simp [List.mem_filter]
  · intro hnone
    have hnil : t.rows.filter (fun r => cellOf t.columns r col == value) = [] := by
      apply List.filter_eq_nil_iff.mpr
      intro r hr
      simpa using hnone r hr
    simp [filter_rows, hc, hnil]
  · by_cases hm : (t.rows.filter (fun r => cellOf t.columns r col == value)).isEmpty <;>
      simp [filter_rows, hc, hm]

/-- Witness for C8: the general part applied where the only row does
not match, so the explicit no-match status is reported. -/
theorem c8_filter_exact_match_witness :
    (filter_rows ⟨["status"], [["gone"]]⟩ "status" "active").1 = .ok .noMatches :=
  (c8_filter_exact_match.2 ⟨["status"], [["gone"]]⟩ "status" "active"
    (by decide)).2.1 (by decide)

/-! ## Failure atomicity across every operation -/

/-- C1: whenever any of the nine operations reports a failure (of any
kind), the table after the call is exactly the table before the call;
in particular a `load_csv` whose decode fails leaves the prior table
entirely unchanged and reports that decode's failure kind. -/
theorem c1_failures_leave_table_unchanged :
    (∀ (op : Op) (t : Table) (k : Fail),
      (runOp op t).1 = .fail k → (runOp op t).2 = t) ∧
    (∀ (t : Table) (s : String) (k : Fail), decode s = .error k →
      load_csv t (some s) = (.fail k, t)) := by
  constructor
  · intro op t k h
    cases op with
    | loadOp f =>
      cases f with
      | none => simp [runOp, load_csv]
      | some s =>
        cases hd : decode s with
        | error e => simp [runOp, load_csv, hd]
        | ok t2 => simp [runOp, load_csv, hd, Outcome.status] at h
    | saveOp w =>
      cases w <;> simp [runOp, save_csv, Outcome.status] at h ⊢
    | viewOp n =>
      by_cases hemp : t.isEmpty = true <;>
        simp [runOp, view, hemp, Outcome.status] at h
    | addRowOp vs =>
      by_cases h1 : (t.isEmpty = false ∧ vs.length ≠ t.columns.length)
      · simp [runOp, add_row, h1]
      · by_cases h2 : t.isEmpty = true
        · simp [runOp, add_row, h1, h2, Outcome.status] at h
        · have hf : t.isEmpty = false := by simpa using h2
          have hlen : vs.length = t.columns.length := by
            by_contra hne
            exact h1 ⟨hf, hne⟩
          simp [runOp, add_row, h1, h2, hlen, Outcome.status] at h
    | addColumnOp name vs =>
      by_cases h1 : (t.isEmpty = false ∧ vs.length ≠ t.rows.length)
      · simp [runOp, add_column, h1]
      · cases hs : setCol t name vs with
        | some t2 => simp [runOp, add_column, h1, hs, Outcome.status] at h
        | none => simp [runOp, add_column, h1, hs, Outcome.status] at h
    | sumOp c =>
      by_cases hc : c ∈ t.columns <;>
        simp [runOp, sum_column, hc, Outcome.status] at h ⊢
    | averageOp c =>
      by_cases hc : c ∈ t.columns
      · simp only [runOp, average_column, if_pos hc] at h
        split at h <;> simp [Outcome.status] at h
      · simp [runOp, average_column, hc]
    | filterOp c v =>
      by_cases hc : c ∈ t.columns
      · simp only [runOp, filter_rows, if_pos hc] at h
        split at h <;> simp [Outcome.status] at h
      · simp [runOp, filter_rows, hc]
    | plotOp x y kind =>
      by_cases hc : (x ∈ t.columns ∧ y ∈ t.columns)
      · by_cases hk : (kind = "line" ∨ kind = "bar") <;>
          simp [runOp, plot, hc, hk, Outcome.status] at h ⊢
      · simp [runOp, plot, hc]
  · intro t s k h
    simp [load_csv, h]

/-- Witness for C1: a shape-mismatched `add_row` and an empty-data
load both leave the one-row table as it was. -/
theorem c1_failures_leave_table_unchanged_witness :
    (runOp (.addRowOp ["x", "y"]) ⟨["a"], [["1"]]⟩).2 = ⟨["a"], [["1"]]⟩ ∧
    load_csv ⟨["a"], [["1"]]⟩ (some "\n") = (.fail .emptyData, ⟨["a"], [["1"]]⟩) :=
  ⟨c1_failures_leave_table_unchanged.1 (.addRowOp ["x", "y"]) ⟨["a"], [["1"]]⟩
      .shapeMismatch (by decide),
   c1_failures_leave_table_unchanged.2 ⟨["a"], [["1"]]⟩ "\n" .emptyData (by rfl)⟩

/-! ## Exception escape in `add_column` -/

/-- The column assignment fails (the pandas `ValueError`) exactly when
the table is not empty on both axes and the value count disagrees
with the row count. -/
theorem setCol_eq_none_iff (t : Table) (name : String) (values : List String) :
    setCol t name values = none ↔
      ¬(t.columns = [] ∧ t.rows = []) ∧ values.length ≠ t.rows.length := by
  by_cases h1 : (t.columns = [] ∧ t.rows = [])
  · simp [setCol, h1]
  · by_cases h2 : values.length = t.rows.length
    · by_cases h3 : name ∈ t.columns <;> simp [setCol, h1, h2, h3]
    · simp [setCol, h1, h2]

/-- C9 counterexample: `add_column` on a table with one column and no
rows, given one value, escapes with an uncaught exception instead of
returning a reported failure: the length guard is skipped because the
table is pandas-empty, and the assignment itself is outside any
handler. -/
theorem c9_uncaught_exception_counterexample :
    (runOp (.addColumnOp "b" ["x"]) ⟨["a"], []⟩).1 = .raised := by decide

/-- C9 amended: an operation call lets an exception escape exactly
when it is `add_column` on a table that is pandas-empty (one axis of
length zero) without being empty on both axes, with a value count
different from the row count; every other failure, of every
operation on every input, is recovered inside the call. -/
theorem c9_exceptions_escape_only_degenerate_add_column (op : Op) (t : Table) :
    (runOp op t).1 = .raised ↔
      ∃ name values, op = .addColumnOp name values ∧ t.isEmpty = true ∧
        ¬(t.columns = [] ∧ t.rows = []) ∧ values.length ≠ t.rows.length := by
  constructor
  · intro h
    cases op with
    | loadOp f =>
      exfalso
      cases f with
      | none => simp [runOp, load_csv, Outcome.status] at h
      | some s =>
        cases hd : decode s with
        | error e => simp [runOp, load_csv, hd, Outcome.status] at h
        | ok t2 => simp [runOp, load_csv, hd, Outcome.status] at h
    | saveOp w =>
      exfalso
      cases w <;> simp [runOp, save_csv, Outcome.status] at h
    | viewOp n =>
      exfalso
      by_cases hemp : t.isEmpty = true <;>
        simp [runOp, view, hemp, Outcome.status] at h
    | addRowOp vs =>
      exfalso
      by_cases h1 : (t.isEmpty = false ∧ vs.length ≠ t.columns.length)
      · simp [runOp, add_row, h1, Outcome.status] at h
      · by_cases h2 : t.isEmpty = true
        · simp [runOp, add_row, h1, h2, Outcome.status] at h
        · have hf : t.isEmpty = false := by simpa using h2
          have hlen : vs.length = t.columns.length := by
            by_contra hne
            exact h1 ⟨hf, hne⟩
          simp [runOp, add_row, h1, h2, hlen, Outcome.status] at h
    | addColumnOp name vs =>
      refine ⟨name, vs, rfl, ?_⟩
      by_cases h1 : (t.isEmpty = false ∧ vs.length ≠ t.rows.length)
      · simp [runOp, add_column, h1, Outcome.status] at h
      · cases hs : setCol t name vs with
        | some t2 => simp [runOp, add_column, h1, hs, Outcome.status] at h
        | none =>
          have hcond := (setCol_eq_none_iff t name vs).mp hs
          have hlen : vs.length ≠ t.rows.length := hcond.2
          have hemp : t.isEmpty = true := by
            by_contra hne
            exact h1 ⟨by simpa using hne, hlen⟩
          exact ⟨hemp, hcond.1, hlen⟩
    | sumOp c =>
      exfalso
      by_cases hc : c ∈ t.columns <;>
        simp [runOp, sum_column, hc, Outcome.status] at h
    | averageOp c =>
      exfalso
      by_cases hc : c ∈ t.columns
      · simp only [runOp, average_column, if_pos hc] at h
        split at h <;> simp [Outcome.status] at h
      · simp [runOp, average_column, hc, Outcome.status] at h
    | filterOp c v =>
      exfalso
      by_cases hc : c ∈ t.columns
      · simp only [runOp, filter_rows, if_pos hc] at h
        split at h <;> simp [Outcome.status] at h
      · simp [runOp, filter_rows, hc, Outcome.status] at h
    | plotOp x y kind =>
      exfalso
      by_cases hc : (x ∈ t.columns ∧ y ∈ t.columns)
      · by_cases hk : (kind = "line" ∨ kind = "bar") <;>
          simp [runOp, plot, hc, hk, Outcome.status] at h
      · simp [runOp, plot, hc, Outcome.status] at h
  · rintro ⟨name, vs, rfl, hemp, hne, hlen⟩
    have hs : setCol t name vs = none :=
      (setCol_eq_none_iff t name vs).mpr ⟨hne, hlen⟩
    simp [runOp, add_column, hemp, hs, Outcome.status]

/-! ## Column addition: cell-level lemmas -/

/-- Overwriting column `name` in a row makes its cell under `name` the
new value. -/
theorem cellOf_setCell_self : ∀ (cols row : List String) (name w : String),
    name ∈ cols → row.length = cols.length →
    cellOf cols (setCell cols row name w) name = w := by
  intro cols
  induction cols with
  | nil => intro row name w hmem; simp at hmem
  | cons c0 cs ih =>
    intro row name w hmem hlen
    cases row with
    | nil => simp at hlen
    | cons v vs =>
      by_cases hc : c0 = name
      · subst hc
        simp [setCell, cellOf]
      · have hmem2 : name ∈ cs := by
          rcases List.mem_cons.mp hmem with h | h
          · exact absurd h.symm hc
          · exact h
        simp only [setCell, if_neg hc, cellOf]
        exact ih vs name w hmem2 (by simpa using hlen)

/-- Overwriting column `name` leaves the cell of every other column
unchanged. -/
theorem cellOf_setCell_other : ∀ (cols row : List String) (name w c : String),
    c ≠ name → cellOf cols (setCell cols row name w) c = cellOf cols row c := by
  intro cols
  induction cols with
  | nil => intro row name w c _; simp [setCell]
  | cons c0 cs ih =>
    intro row name w c hcne
    cases row with
    | nil => simp [setCell]
    | cons v vs =>
      by_cases hc : c0 = name
      · subst hc
        have hc0 : c0 ≠ c := fun h => hcne h.symm
        simp [setCell, cellOf, hc0]
      · simp only [setCell, if_neg hc, cellOf]
        by_cases h0 : c0 = c
        · simp [h0]
        · rw [if_neg h0, if_neg h0]
          exact ih vs name w c hcne

/-- Appending a fresh column makes the new cell its value. -/
theorem cellOf_append_self : ∀ (cols row : List String) (name v : String),
    name ∉ cols → row.length = cols.length →
    cellOf (cols ++ [name]) (row ++ [v]) name = v := by
  intro cols
  induction cols with
  | nil =>
    intro row name v _ hlen
    have : row = [] := List.length_eq_zero.mp hlen
    subst this
    simp [cellOf]
  | cons c0 cs ih =>
    intro row name v hmem hlen
    cases row with
    | nil => simp at hlen
    | cons w ws =>
      have hc0 : c0 ≠ name := fun h => hmem (h ▸ List.mem_cons_self c0 cs)
      simp only [List.cons_append, cellOf, if_neg hc0]
      exact ih ws name v (fun h => hmem (List.mem_cons_of_mem c0 h))
        (by simpa using hlen)

/-- Appending a fresh column leaves the cell of every existing column
unchanged. -/
theorem cellOf_append_other : ∀ (cols row : List String) (name v c : String),
    c ∈ cols → row.length = cols.length →
    cellOf (cols ++ [name]) (row ++ [v]) c = cellOf cols row c := by
  intro cols
  induction cols with
  | nil => intro row name v c hmem; simp at hmem
  | cons c0 cs ih =>
    intro row name v c hmem hlen
    cases row with
    | nil => simp at hlen
    | cons w ws =>
      simp only [List.cons_append, cellOf]
      by_cases h0 : c0 = c
      · simp [h0]
      · rw [if_neg h0, if_neg h0]
        have hmem2 : c ∈ cs := by
          rcases List.mem_cons.mp hmem with h | h
          · exact absurd h.symm h0
          · exact h
        exact ih ws name v c hmem2 (by simpa using hlen)

/-- Extracting column `name` after the overwrite yields `values`. -/
theorem overwrite_extract (cols : List String) (name : String) :
    ∀ (rows : List (List String)) (values : List String),
      rows.length = values.length → name ∈ cols →
      (∀ r ∈ rows, r.length = cols.length) →
      (List.zipWith (fun r v => setCell cols r name v) rows values).map
        (fun r => cellOf cols r name) = values := by
  intro rows
  induction rows with
  | nil =>
    intro values hlen _ _
    have : values = [] := (List.length_eq_zero.mp hlen.symm)
    subst this
    simp
  | cons r rs ih =>
    intro values hlen hmem hrect
    cases values with
    | nil => simp at hlen
    | cons v vs =>
      simp only [List.zipWith_cons_cons, List.map_cons]
      refine List.cons_eq_cons.mpr ⟨?_, ?_⟩
      · exact cellOf_setCell_self cols r name v hmem (hrect r (List.mem_cons_self r rs))
      · exact ih vs (by simpa using hlen) hmem
          (fun x hx => hrect x (List.mem_cons_of_mem r hx))

/-- Extracting any other column after the overwrite is unchanged. -/
theorem overwrite_preserve (cols : List String) (name c : String) (hcne : c ≠ name) :
    ∀ (rows : List (List String)) (values : List String),
      rows.length = values.length →
      (List.zipWith (fun r v => setCell cols r name v) rows values).map
        (fun r => cellOf cols r c) = rows.map (fun r => cellOf cols r c) := by
  intro rows
  induction rows with
  | nil => intro values _; simp
  | cons r rs ih =>
    intro values hlen
    cases values with
    | nil => simp at hlen
    | cons v vs =>
      simp only [List.zipWith_cons_cons, List.map_cons]
      refine List.cons_eq_cons.mpr ⟨?_, ?_⟩
      · exact cellOf_setCell_other cols r name v c hcne
      · exact ih vs (by simpa using hlen)

/-- Extracting the appended column yields `values`. -/
theorem append_extract (cols : List String) (name : String) (hmem : name ∉ cols) :
    ∀ (rows : List (List String)) (values : List String),
      rows.length = values.length →
      (∀ r ∈ rows, r.length = cols.length) →
      (List.zipWith (fun r v => r ++ [v]) rows values).map
        (fun r => cellOf (cols ++ [name]) r name) = values := by
  intro rows
  induction rows with
  | nil =>
    intro values hlen _
    have : values = [] := (List.length_eq_zero.mp hlen.symm)
    subst this
    simp
  | cons r rs ih =>
    intro values hlen hrect
    cases values with
    | nil => simp at hlen
    | cons v vs =>
      simp only [List.zipWith_cons_cons, List.map_cons]
      refine List.cons_eq_cons.mpr ⟨?_, ?_⟩
      · exact cellOf_append_self cols r name v hmem (hrect r (List.mem_cons_self r rs))
      · exact ih vs (by simpa using hlen)
          (fun x hx => hrect x (List.mem_cons_of_mem r hx))

/-- Extracting an existing column after the append is unchanged. -/
theorem append_preserve (cols : List String) (name c : String) (hmem : c ∈ cols) :
    ∀ (rows : List (List String)) (values : List String),
      rows.length = values.length →
      (∀ r ∈ rows, r.length = cols.length) →
      (List.zipWith (fun r v => r ++ [v]) rows values).map
        (fun r => cellOf (cols ++ [name]) r c) = rows.map (fun r => cellOf cols r c) := by
  intro rows
  induction rows with
  | nil => intro values _ _; simp
  | cons r rs ih =>
    intro values hlen hrect
    cases values with
    | nil => simp at hlen
    | cons v vs =>
      simp only [List.zipWith_cons_cons, List.map_cons]
      refine List.cons_eq_cons.mpr ⟨?_, ?_⟩
      · exact cellOf_append_other cols r name v c hmem (hrect r (List.mem_cons_self r rs))
      · exact ih vs (by simpa using hlen)
          (fun x hx => hrect x (List.mem_cons_of_mem r hx))

/-- C5: on a non-empty rectangular table with `r` rows, `add_column`
with `r` values succeeds; the column list gains `name` at the end, or
stays the same when `name` already existed, in which case the old
column is silently overwritten with no error; afterwards exactly the
`name` column holds the given values (row by row, in order) and every
other column is untouched, with the row count unchanged; any other
value count is the reported `ShapeMismatch` and the table is
completely unchanged. -/
theorem c5_add_column (t : Table) (name : String) (values : List String)
    (he : t.isEmpty = false) (hrect : t.rect = true) :
    (values.length = t.rows.length →
      (add_column t name values).1 = .ok () ∧
      (add_column t name values).2.columns
        = (if name ∈ t.columns then t.columns else t.columns ++ [name]) ∧
      (add_column t name values).2.columns.length
        = (if name ∈ t.columns then t.columns.length else t.columns.length + 1) ∧
      (add_column t name values).2.rows.length = t.rows.length ∧
      colCells (add_column t name values).2 name = values ∧
      (∀ c ∈ t.columns, c ≠ name →
        colCells (add_column t name values).2 c = colCells t c)) ∧
    (values.length ≠ t.rows.length →
      add_column t name values = (.fail .shapeMismatch, t)) := by
  have hrows : ¬(t.rows = []) := by
    intro hr
    simp [Table.isEmpty, hr] at he
  have hboth : ¬(t.columns = [] ∧ t.rows = []) := fun h => hrows h.2
  have hrect2 : ∀ r ∈ t.rows, r.length = t.columns.length := by
    intro r hr
    have := List.all_eq_true.mp hrect r hr
    exact beq_iff_eq.mp this
  constructor
  · intro hlen
    have hcond : ¬(t.isEmpty = false ∧ values.length ≠ t.rows.length) := by
      simp [hlen]
    by_cases hmem : name ∈ t.columns
    · have hs : setCol t name values =
          some ⟨t.columns,
                List.zipWith (fun r v => setCell t.columns r name v) t.rows values⟩ := by
        simp [setCol, hboth, hlen, hmem]
      refine ⟨?_, ?_, ?_, ?_, ?_, ?_⟩
      · simp [add_column, hcond, hs]
      · simp [add_column, hcond, hs, hmem]
      · simp [add_column, hcond, hs, hmem]
      · simp [add_column, hcond, hs, List.length_zipWith, hlen]
      · simp only [add_column, if_neg hcond, hs]
        simpa [colCells] using
          overwrite_extract t.columns name t.rows values hlen.symm hmem hrect2
      · intro c hc hcne
        simp only [add_column, if_neg hcond, hs]
        simpa [colCells] using
          overwrite_preserve t.columns name c hcne t.rows values hlen.symm
    · have hs : setCol t name values =
          some ⟨t.columns ++ [name],
                List.zipWith (fun r v => r ++ [v]) t.rows values⟩ := by
        simp [setCol, hboth, hlen, hmem]
      refine ⟨?_, ?_, ?_, ?_, ?_, ?_⟩
      · simp [add_column, hcond, hs]
      · simp [add_column, hcond, hs, hmem]
      · simp [add_column, hcond, hs, hmem]
      · simp [add_column, hcond, hs, List.length_zipWith, hlen]
      · simp only [add_column, if_neg hcond, hs]
        simpa [colCells] using
          append_extract t.columns name hmem t.rows values hlen.symm hrect2
      · intro c hc hcne
        simp only [add_column, if_neg hcond, hs]
        simpa [colCells] using
          append_preserve t.columns name c hc t.rows values hlen.symm hrect2
  · intro hne
    simp [add_column, he, hne]

/-- Witness for C5: overwriting the existing column `b` of a 2×2
table succeeds and installs the new values; a one-value column on the
same table is rejected with `ShapeMismatch`. -/
theorem c5_add_column_witness :
    (add_column ⟨["a", "b"], [["1", "2"], ["3", "4"]]⟩ "b" ["x", "y"]).1 = .ok () ∧
    colCells (add_column ⟨["a", "b"], [["1", "2"], ["3", "4"]]⟩ "b" ["x", "y"]).2 "b"
      = ["x", "y"] ∧
    add_column ⟨["a", "b"], [["1", "2"], ["3", "4"]]⟩ "c" ["x"]
      = (.fail .shapeMismatch, ⟨["a", "b"], [["1", "2"], ["3", "4"]]⟩) :=
  ⟨((c5_add_column ⟨["a", "b"], [["1", "2"], ["3", "4"]]⟩ "b" ["x", "y"]
      (by decide) (by decide)).1 (by decide)).1,
   (((c5_add_column ⟨["a", "b"], [["1", "2"], ["3", "4"]]⟩ "b" ["x", "y"]
      (by decide) (by decide)).1 (by decide)).2.2.2.2).1,
   (c5_add_column ⟨["a", "b"], [["1", "2"], ["3", "4"]]⟩ "c" ["x"]
      (by decide) (by decide)).2 (by decide)⟩

/-! ## Codec round trip: field-level lemmas -/

/-- The input stands at a field boundary: exhausted, or at a comma or
newline. -/
def sepStart : List Char → Prop
  | [] => True
  | c :: _ => c = ',' ∨ c = '\n'

/-- Unpack `needsQuote` over a cons. -/
theorem needsQuote_cons_false (a : Char) (as : List Char)
    (h : needsQuote (a :: as) = false) :
    a ≠ ',' ∧ a ≠ '"' ∧ a ≠ '\n' ∧ a ≠ '\r' ∧ needsQuote as = false := by
  rw [needsQuote, List.any_cons] at h
  rcases Bool.or_eq_false_iff.mp h with ⟨h1, h2⟩
  have h3 := of_decide_eq_false h1
  push_neg at h3
  exact ⟨h3.1, h3.2.1, h3.2.2.1, h3.2.2.2, h2⟩

/-- A separator character is not a quote. -/
theorem sepStart_head_ne_quote (c : Char) (r : List Char)
    (h : sepStart (c :: r)) : c ≠ '"' := by
  rcases h with h | h <;> (subst h; intro h2; exact absurd h2 (by decide))

/-- Parsing an unquoted encoded field consumes exactly the field. -/
theorem parseUnquoted_encode (f : List Char) :
    ∀ rest : List Char, needsQuote f = false → sepStart rest →
      parseUnquoted (f ++ rest) = (f, rest) := by
  induction f with
  | nil =>
    intro rest _ hsep
    cases rest with
    | nil => rfl
    | cons c r =>
      have hsep2 : c = ',' ∨ c = '\n' := hsep
      rw [List.nil_append, parseUnquoted, if_pos hsep2]
  | cons a as ih =>
    intro rest hq hsep
    obtain ⟨h1, _, h3, _, has⟩ := needsQuote_cons_false a as hq
    have hcond : ¬(a = ',' ∨ a = '\n') := by
      rintro (h | h)
      · exact h1 h
      · exact h3 h
    rw [List.cons_append, parseUnquoted, if_neg hcond, ih rest has hsep]

/-- Parsing a quote-escaped field body consumes it up to and
including the closing quote. -/
theorem parseQuoted_encode (f : List Char) :
    ∀ rest : List Char, sepStart rest →
      parseQuoted (escQuotes f ++ ('"' :: rest)) = some (f, rest) := by
  induction f with
  | nil =>
    intro rest hsep
    cases rest with
    | nil => rfl
    | cons c r =>
      have hc := sepStart_head_ne_quote c r hsep
      rw [escQuotes, List.nil_append, parseQuoted, if_pos rfl, if_neg hc]
  | cons a as ih =>
    intro rest hsep
    by_cases ha : a = '"'
    · subst ha
      rw [escQuotes, if_pos rfl, List.cons_append, List.cons_append]
      rw [parseQuoted, if_pos rfl, if_pos rfl, ih rest hsep]
      rfl
    · rw [escQuotes, if_neg ha, List.cons_append]
      have hshape : escQuotes as ++ ('"' :: rest) ≠ [] := by
        intro hcon
        rcases List.append_eq_nil.mp hcon with ⟨_, h2⟩
        exact List.cons_ne_nil _ _ h2
      obtain ⟨b, bs, hb⟩ : ∃ b bs, escQuotes as ++ ('"' :: rest) = b :: bs := by
        cases hbb : escQuotes as ++ ('"' :: rest) with
        | nil => exact absurd hbb hshape
        | cons b bs => exact ⟨b, bs, rfl⟩
      rw [hb, parseQuoted, if_neg ha, ← hb, ih rest hsep]
      rfl

/-- Parsing an encoded field (quoted as needed) consumes exactly the
field. -/
theorem parseField_encode (f : String) (rest : List Char) (hsep : sepStart rest) :
    parseField (encodeField f ++ rest) = some (f.data, rest) := by
  by_cases hq : needsQuote f.data = true
  · have hshape : (('"' :: (escQuotes f.data ++ ['"'])) ++ rest)
        = '"' :: (escQuotes f.data ++ ('"' :: rest)) := by
      simp
    rw [encodeField, if_pos hq, hshape, parseField, if_pos rfl]
    exact parseQuoted_encode f.data rest hsep
  · have hq2 : needsQuote f.data = false := by simpa using hq
    rw [encodeField, if_neg (by simp [hq2])]
    cases hf : f.data with
    | nil =>
      cases rest with
      | nil => rfl
      | cons c r =>
        have hc := sepStart_head_ne_quote c r hsep
        rw [List.nil_append, parseField, if_neg hc]
        have hsub := parseUnquoted_encode [] (c :: r) (by rfl) hsep
        rw [List.nil_append] at hsub
        rw [hsub]
    | cons a as =>
      have hq3 : needsQuote (a :: as) = false := hf ▸ hq2
      obtain ⟨_, ha, _, _, _⟩ := needsQuote_cons_false a as hq3
      rw [List.cons_append, parseField, if_neg ha, ← List.cons_append,
        parseUnquoted_encode (a :: as) rest hq3 hsep]

/-! ## Codec round trip: record and file level -/

/-- A record of `k` fields encodes to at least `k - 1` characters
(the separating commas). -/
theorem encodeRecord_length : ∀ fields : List String, fields ≠ [] →
    fields.length ≤ (encodeRecord fields).length + 1 := by
  intro fields
  induction fields with
  | nil => intro h; exact absurd rfl h
  | cons f fs ih =>
    intro _
    cases fs with
    | nil => simp [encodeRecord]
    | cons g gs =>
      have hgs := ih (List.cons_ne_nil g gs)
      simp only [encodeRecord, List.length_append, List.length_cons] at hgs ⊢
      omega

/-- Parsing an encoded record consumes it and its newline. -/
theorem parseRecordAux_encode :
    ∀ (fields : List String) (rest : List Char) (fuel : Nat),
      fields ≠ [] → fields.length ≤ fuel →
      parseRecordAux fuel (encodeRecord fields ++ ('\n' :: rest))
        = some (fields.map String.data, rest) := by
  intro fields
  induction fields with
  | nil => intro rest fuel h _; exact absurd rfl h
  | cons f fs ih =>
    intro rest fuel _ hfuel
    cases fuel with
    | zero => simp at hfuel
    | succ n =>
      cases fs with
      | nil =>
        rw [show encodeRecord [f] = encodeField f from rfl]
        simp only [parseRecordAux, parseField_encode f ('\n' :: rest) (Or.inr rfl)]
        simp
      | cons g gs =>
        have hshape : encodeRecord (f :: g :: gs) ++ ('\n' :: rest)
            = encodeField f ++ (',' :: (encodeRecord (g :: gs) ++ ('\n' :: rest))) := by
          rw [show encodeRecord (f :: g :: gs)
              = encodeField f ++ ',' :: encodeRecord (g :: gs) from rfl]
          simp
        rw [hshape]
        simp only [parseRecordAux,
          parseField_encode f (',' :: (encodeRecord (g :: gs) ++ ('\n' :: rest))) (Or.inl rfl),
          if_true]
        rw [ih rest n (List.cons_ne_nil g gs)
          (by simp only [List.length_cons] at hfuel ⊢; omega)]
        rfl

/-- Each record contributes at least its newline to the encoding. -/
theorem encodeLines_length : ∀ recs : List (List String),
    recs.length ≤ (encodeLines recs).length := by
  intro recs
  induction recs with
  | nil => simp [encodeLines]
  | cons r rs ih =>
    simp only [encodeLines, List.length_append, List.length_cons]
    omega

/-- Parsing the encoded record sequence returns every record. -/
theorem parseRecordsAux_encode :
    ∀ (recs : List (List String)) (fuel : Nat),
      (∀ r ∈ recs, r ≠ []) → recs.length + 1 ≤ fuel →
      parseRecordsAux fuel (encodeLines recs)
        = some (recs.map (fun r => r.map String.data)) := by
  intro recs
  induction recs with
  | nil =>
    intro fuel _ hfuel
    cases fuel with
    | zero => omega
    | succ n => rfl
  | cons r rs ih =>
    intro fuel hne hfuel
    cases fuel with
    | zero => simp at hfuel
    | succ n =>
      have hrne : r ≠ [] := hne r (List.mem_cons_self r rs)
      have hlines : encodeLines (r :: rs) = encodeRecord r ++ ('\n' :: encodeLines rs) := rfl
      have hnonnil : encodeLines (r :: rs) ≠ [] := by
        rw [hlines]
        intro hcon
        rcases List.append_eq_nil.mp hcon with ⟨_, h2⟩
        exact List.cons_ne_nil _ _ h2
      have hempty : (encodeLines (r :: rs)).isEmpty = false := by
        cases hE : encodeLines (r :: rs) with
        | nil => exact absurd hE hnonnil
        | cons x xs => rfl
      simp only [parseRecordsAux, hempty, Bool.false_eq_true, if_false]
      rw [hlines]
      have hfuelIn : r.length ≤ (encodeRecord r ++ ('\n' :: encodeLines rs)).length + 1 := by
        have h1 := encodeRecord_length r hrne
        simp only [List.length_append, List.length_cons]
        omega
      rw [parseRecordAux_encode r (encodeLines rs) _ hrne hfuelIn]
      show (parseRecordsAux n (encodeLines rs)).map
          (fun rs2 => (r.map String.data) :: rs2)
        = some ((r :: rs).map (fun x => x.map String.data))
      rw [ih n (fun x hx => hne x (List.mem_cons_of_mem r hx))
        (by simp only [List.length_cons] at hfuel ⊢; omega)]
      rfl

/-- When every record is empty, the encoding is nothing but
newlines. -/
theorem encodeLines_all_newlines : ∀ recs : List (List String),
    (∀ r ∈ recs, r = []) →
    (encodeLines recs).all (fun c => c == '\n') = true := by
  intro recs
  induction recs with
  | nil => intro _; rfl
  | cons r rs ih =>
    intro h
    have hr : r = [] := h r (List.mem_cons_self r rs)
    subst hr
    show (encodeRecord [] ++ ('\n' :: encodeLines rs)).all (fun c => c == '\n') = true
    rw [show encodeRecord [] = [] from rfl, List.nil_append, List.all_cons]
    simp [ih (fun x hx => h x (List.mem_cons_of_mem [] hx))]

/-- Rebuilding a string from its characters is the identity. -/
theorem string_mk_data (s : String) : (⟨s.data⟩ : String) = s := by
  cases s
  rfl

/-- Mapping to characters and back is the identity on string lists. -/
theorem map_mk_map_data (l : List String) :
    (l.map String.data).map (fun f => (⟨f⟩ : String)) = l := by
  rw [List.map_map]
  have hcomp : ((fun f => (⟨f⟩ : String)) ∘ String.data) = id := by
    funext s
    exact string_mk_data s
  rw [hcomp, List.map_id]

/-- Decoding the encoding of a rectangular table whose saved text is
not entirely blank lines gives back exactly that table. -/
theorem decode_encode (t : Table) (hrect : t.rect = true)
    (hnb : (encode t).data.all (fun c => c == '\n') = false) :
    decode (encode t) = .ok t := by
  have hdata : (encode t).data = encodeLines (t.columns :: t.rows) := rfl
  have hrect2 : ∀ r ∈ t.rows, r.length = t.columns.length := by
    intro r hr
    exact beq_iff_eq.mp (List.all_eq_true.mp hrect r hr)
  have hcols : t.columns ≠ [] := by
    intro hc
    have hall : ∀ r ∈ (t.columns :: t.rows), r = [] := by
      intro r hr
      rcases List.mem_cons.mp hr with h | h
      · exact h.trans hc
      · have hlen := hrect2 r h
        rw [hc] at hlen
        exact List.length_eq_zero.mp (by simpa using hlen)
    have hAllNl := encodeLines_all_newlines (t.columns :: t.rows) hall
    rw [← hdata] at hAllNl
    rw [hAllNl] at hnb
    cases hnb
  have hne : ∀ r ∈ (t.columns :: t.rows), r ≠ [] := by
    intro r hr
    rcases List.mem_cons.mp hr with h | h
    · exact h ▸ hcols
    · intro hcon
      have hlen := hrect2 r h
      rw [hcon] at hlen
      exact hcols (List.length_eq_zero.mp hlen.symm)
  simp only [decode]
  rw [if_neg (by simp [hnb])]
  rw [hdata]
  have hfuel : (t.columns :: t.rows).length + 1
      ≤ (encodeLines (t.columns :: t.rows)).length + 2 := by
    have := encodeLines_length (t.columns :: t.rows)
    simp only [List.length_cons] at this ⊢
    omega
  rw [parseRecordsAux_encode (t.columns :: t.rows) _ hne hfuel]
  simp only [List.map_cons]
  have hcheck : (t.rows.map (fun r => r.map String.data)).all
      (fun r => r.length == (t.columns.map String.data).length) = true := by
    apply List.all_eq_true.mpr
    intro x hx
    rcases List.mem_map.mp hx with ⟨r, hr, rfl⟩
    apply beq_iff_eq.mpr
    simp [hrect2 r hr]
  rw [if_pos hcheck]
  have hrows2 : (t.rows.map (fun r => r.map String.data)).map
      (fun r => r.map (fun f => (⟨f⟩ : String))) = t.rows := by
    rw [List.map_map]
    have hcomp : ((fun r : List (List Char) => r.map (fun f => (⟨f⟩ : String))) ∘
        (fun r : List String => r.map String.data)) = id := by
      funext r
      simp only [Function.comp]
      exact map_mk_map_data r
    rw [hcomp, List.map_id]
  rw [map_mk_map_data t.columns, hrows2]

/-- C2 counterexample: the empty table is rectangular, yet saving it
produces a blank file whose load reports `EmptyData` and keeps the
destination store's prior table — the load does not yield the saved
empty table. -/
theorem c2_roundtrip_counterexample :
    Table.rect ⟨[], []⟩ = true ∧
    save_csv ⟨[], []⟩ true = (.ok (encode ⟨[], []⟩), ⟨[], []⟩) ∧
    load_csv ⟨["z"], [["w"]]⟩ (some (encode ⟨[], []⟩))
      = (.fail .emptyData, ⟨["z"], [["w"]]⟩) ∧
    (load_csv ⟨["z"], [["w"]]⟩ (some (encode ⟨[], []⟩))).2 ≠ (⟨[], []⟩ : Table) :=
  ⟨by decide, rfl, rfl, by decide⟩

/-- C2 amended: for every rectangular table whose saved text is not
entirely blank lines (some header name or cell nonempty, or at least
two columns), loading the saved text into any store succeeds and
yields exactly the saved table, with its row and column counts
reported. -/
theorem c2_save_load_roundtrip (t tOld : Table) (hrect : t.rect = true)
    (hnb : (encode t).data.all (fun c => c == '\n') = false) :
    load_csv tOld (some (encode t)) = (.ok (t.rows.length, t.columns.length), t) := by
  rw [load_csv, decode_encode t hrect hnb]

/-- Witness for the amended C2 at a table with a comma inside a cell
(exercising the quoting path of the codec). -/
theorem c2_save_load_roundtrip_witness :
    load_csv ⟨[], []⟩ (some (encode ⟨["a", "b"], [["1", "x,y"]]⟩))
      = (.ok (1, 2), ⟨["a", "b"], [["1", "x,y"]]⟩) :=
  c2_save_load_roundtrip ⟨["a", "b"], [["1", "x,y"]]⟩ ⟨[], []⟩ (by decide) (by decide)

end Spreadsheet
